import Mathlib

/-!
Verification of the Todo-App repository core: the domain mutation operations
(`todo/todo.go`), the JSON persistence codec (`todo/storage.go`, context-aware
variant), and the actor-based concurrency-safe store (`service.ActorStore`).

Go strings are modelled as Lean `String`/`List Char`; Go `int` as `Int`;
Go multi-value returns `(T, error)` as `T × Option String` (the `error`
component, `none` for `nil`); fallible decoding as `Except String`.
`time.Time` values travel through the system opaquely and are marshalled as
their RFC3339 text, so `CreatedAt` is modelled as that text (a `String`),
which every operation of the core treats as an opaque token.
-/

set_option maxRecDepth 8192

namespace TodoApp

/-- Character set of Go's `unicode.IsSpace`: the cutset used by
`strings.TrimSpace` (ASCII whitespace plus the Unicode White_Space points). -/
def goIsSpace (c : Char) : Bool :=
  (c.toNat == 9) || (c.toNat == 10) || (c.toNat == 11) || (c.toNat == 12) ||
  (c.toNat == 13) || (c.toNat == 32) || (c.toNat == 133) || (c.toNat == 160) ||
  (c.toNat == 5760) || (Nat.ble 8192 c.toNat && Nat.ble c.toNat 8202) ||
  (c.toNat == 8232) || (c.toNat == 8233) || (c.toNat == 8239) ||
  (c.toNat == 8287) || (c.toNat == 12288)

/-- List-level trim of leading and trailing `goIsSpace` characters, the
semantics of Go's `strings.TrimSpace`. -/
def trimL (l : List Char) : List Char :=
  ((l.dropWhile goIsSpace).reverse.dropWhile goIsSpace).reverse

/-- Go `strings.TrimSpace`. -/
def goTrimSpace (s : String) : String :=
  String.mk (trimL s.data)

/-- Go `strings.ToLower` restricted to ASCII letters (statuses, the only
strings the code lowercases, are ASCII; Unicode case folding is elided). -/
def goToLower (s : String) : String :=
  String.mk (s.data.map Char.toLower)

/-- Item is the domain entity persisted in JSON (`todo/todo.go`). -/
structure Item where
  ID : Int
  Description : String
  Status : String
  CreatedAt : String
deriving DecidableEq

/-- Zero value of `Item`, returned by Go alongside validation errors. -/
def itemZero : Item := ⟨0, "", "", ""⟩

/-- StatusNotStarted constant. -/
def statusNotStarted : String := "not started"

/-- StatusStarted constant. -/
def statusStarted : String := "started"

/-- StatusCompleted constant. -/
def statusCompleted : String := "completed"

/-- Allowed status values. -/
def validStatuses : List String := [statusNotStarted, statusStarted, statusCompleted]

/-- Status.Validate: the status, lowercased, must be one of the allowed
values; otherwise an error is returned (`todo/todo.go` lines 27-34). -/
def statusValidate (s : String) : Option String :=
  if goToLower s ∈ validStatuses then none else some ("invalid status: " ++ s)

/-- Reduction of an integer into Go's 64-bit int range: the two's
complement wrap-around Go applies to every int operation. -/
def wrapInt64 (z : Int) : Int := (z + 2 ^ 63) % 2 ^ 64 - 2 ^ 63

/-- Running maximum of the ids as the loop in `getNextID` computes it,
starting at 0 (the comparisons themselves cannot overflow). -/
def foldMaxID (list : List Item) : Int :=
  list.foldl (fun m t => if t.ID > m then t.ID else m) 0

/-- getNextID returns max(ID)+1 over the list, starting the running maximum
at 0 (`todo/todo.go` lines 47-55). The addition `max + 1` is Go 64-bit int
arithmetic, so it wraps to -2^63 when the maximum id is 2^63-1. -/
def getNextID (list : List Item) : Int := wrapInt64 (foldMaxID list + 1)

/-- Add validates input and appends a new item to the list, returning the
updated list, the created item and the error slot (`todo/todo.go` 62-78).
The creation timestamp `now` (Go `time.Now()`) is passed explicitly. -/
def Add (list : List Item) (desc : String) (status : String) (now : String) :
    List Item × Item × Option String :=
  let d := goTrimSpace desc
  if d = "" then (list, itemZero, some "description cannot be empty")
  else
    match statusValidate status with
    | some e => (list, itemZero, some e)
    | none =>
      let item : Item := ⟨getNextID list, d, goToLower status, now⟩
      (list ++ [item], item, none)

/-- Helper for `UpdateStatus`: set the status of the first item carrying the
given id, or report that no index matched. -/
def setStatusFirst : List Item → Int → String → Option (List Item)
  | [], _, _ => none
  | x :: xs, id, st =>
    if x.ID = id then some ({ x with Status := st } :: xs)
    else (setStatusFirst xs id st).map (fun ys => x :: ys)

/-- UpdateStatus finds an item by id and updates its Status to the lowercased
input after validation (`todo/todo.go` 82-93). -/
def UpdateStatus (list : List Item) (id : Int) (s : String) :
    List Item × Option String :=
  match statusValidate s with
  | some e => (list, some e)
  | none =>
    match setStatusFirst list id (goToLower s) with
    | some l => (l, none)
    | none => (list, some ("no to-do with id " ++ toString id))

/-- Helper for `UpdateDescription`: set the description of the first item
carrying the given id. -/
def setDescFirst : List Item → Int → String → Option (List Item)
  | [], _, _ => none
  | x :: xs, id, d =>
    if x.ID = id then some ({ x with Description := d } :: xs)
    else (setDescFirst xs id d).map (fun ys => x :: ys)

/-- UpdateDescription finds an item by id and replaces its Description with
the trimmed input (`todo/todo.go` 97-109). -/
def UpdateDescription (list : List Item) (id : Int) (newDesc : String) :
    List Item × Option String :=
  let d := goTrimSpace newDesc
  if d = "" then (list, some "new description cannot be empty")
  else
    match setDescFirst list id d with
    | some l => (l, none)
    | none => (list, some ("no to-do with id " ++ toString id))

/-- Delete removes the item with the given id; if the id does not exist the
list is returned unchanged with an error (`todo/todo.go` 113-120). -/
def Delete : List Item → Int → List Item × Option String
  | [], id => ([], some ("no to-do with id " ++ toString id))
  | x :: xs, id =>
    if x.ID = id then (xs, none)
    else
      match Delete xs id with
      | (ys, none) => (x :: ys, none)
      | (_, some e) => (x :: xs, some e)

/-- Data-model invariant: item ids are unique within the list. -/
def uniqueIDs (l : List Item) : Prop := (l.map Item.ID).Nodup

/-- Data-model invariant: no description is empty or whitespace-only. -/
def descsValid (l : List Item) : Prop := ∀ it ∈ l, goTrimSpace it.Description ≠ ""

/-- Data-model invariant: every status is one of the three allowed values. -/
def statusesValid (l : List Item) : Prop := ∀ it ∈ l, it.Status ∈ validStatuses

/-- Conjunction of the three data-model invariants of the spec. -/
def ValidList (l : List Item) : Prop := uniqueIDs l ∧ descsValid l ∧ statusesValid l

instance (l : List Item) : Decidable (uniqueIDs l) := by
  unfold uniqueIDs; infer_instance

instance (l : List Item) : Decidable (descsValid l) := by
  unfold descsValid; infer_instance

instance (l : List Item) : Decidable (statusesValid l) := by
  unfold statusesValid; infer_instance

instance (l : List Item) : Decidable (ValidList l) := by
  unfold ValidList; infer_instance

/-!
JSON codec. `marshalItems` models `json.MarshalIndent(list, "", "  ")` on a
`[]todo.Item` value: a pretty-printed JSON array, two-space indentation, the
four fields in struct order, strings escaped as Go's encoder does (quote,
backslash, control characters, and the HTML-escaped `<`, `>`, `&`, plus
U+2028/U+2029). `unmarshalItems` models `json.Unmarshal` restricted to the
canonical layout the encoder produces (the stdlib parser is additionally
tolerant of other whitespace and field orders, which no claim depends on). -/

/-- Literal opening an encoded item up to its `id` value. -/
def litId : List Char := "\x7b\n    \"id\": ".toList

/-- Literal between the `id` value and the `description` value. -/
def litDesc : List Char := ",\n    \"description\": ".toList

/-- Literal between the `description` value and the `status` value. -/
def litStat : List Char := ",\n    \"status\": ".toList

/-- Literal between the `status` value and the `created_at` value. -/
def litCreated : List Char := ",\n    \"created_at\": ".toList

/-- Literal closing an encoded item. -/
def litEnd : List Char := "\n  \x7d".toList

/-- Separator between two encoded items in the array. -/
def litSep : List Char := ",\n  ".toList

/-- Literal opening a non-empty encoded array. -/
def litOpen : List Char := "[\n  ".toList

/-- Literal closing a non-empty encoded array. -/
def litClose : List Char := "\n]".toList

/-- Encoding of the empty array. -/
def litEmptyArr : List Char := "[]".toList

/-- Decimal digit character for `n % 10`. -/
def digitChar (n : Nat) : Char := Char.ofNat (48 + n % 10)

/-- Fuelled most-significant-first decimal printer (fuel makes the
definition structurally recursive so that it evaluates in the kernel). -/
def natDigitsAux : Nat → Nat → List Char
  | 0, _ => []
  | fuel + 1, n =>
    if n < 10 then [digitChar n]
    else natDigitsAux fuel (n / 10) ++ [digitChar (n % 10)]

/-- Decimal digits of a natural number, most significant first. -/
def natDigits (n : Nat) : List Char := natDigitsAux (n + 1) n

/-- Decimal rendering of a Go `int`. -/
def intChars (z : Int) : List Char :=
  if z < 0 then '-' :: natDigits (-z).toNat else natDigits z.toNat

/-- Lowercase hexadecimal digit for `n < 16`. -/
def hexDigitChar (n : Nat) : Char :=
  if n < 10 then digitChar n else Char.ofNat (87 + n)

/-- Four-hex-digit escape `\uXXXX` of a code point below 0x10000. -/
def uEscape (n : Nat) : List Char :=
  ['\\', 'u', hexDigitChar (n / 4096 % 16), hexDigitChar (n / 256 % 16),
   hexDigitChar (n / 16 % 16), hexDigitChar (n % 16)]

/-- Go `encoding/json` escaping of one character inside a string literal. -/
def escapeChar (c : Char) : List Char :=
  if c = '"' then ['\\', '"']
  else if c = '\\' then ['\\', '\\']
  else if c = '\n' then ['\\', 'n']
  else if c = '\r' then ['\\', 'r']
  else if c = '\t' then ['\\', 't']
  else if c.toNat < 32 ∨ c = '<' ∨ c = '>' ∨ c = '&' then uEscape c.toNat
  else if c.toNat = 8232 ∨ c.toNat = 8233 then uEscape c.toNat
  else [c]

/-- Escape every character of a string body. -/
def escapeList (l : List Char) : List Char :=
  l.foldr (fun c acc => escapeChar c ++ acc) []

/-- Encoded JSON string literal, quotes included. -/
def quoteChars (s : String) : List Char := '"' :: (escapeList s.data ++ ['"'])

/-- Encoded item object, at array-element indentation. -/
def itemChars (it : Item) : List Char :=
  litId ++ intChars it.ID ++ litDesc ++ quoteChars it.Description ++
  litStat ++ quoteChars it.Status ++ litCreated ++ quoteChars it.CreatedAt ++ litEnd

/-- Encoded tail of the array after the first item. -/
def itemsRestChars : List Item → List Char
  | [] => litClose
  | it :: its => litSep ++ itemChars it ++ itemsRestChars its

/-- Characters of the encoded array. -/
def marshalChars : List Item → List Char
  | [] => litEmptyArr
  | it :: its => litOpen ++ itemChars it ++ itemsRestChars its

/-- Model of `json.MarshalIndent(list, "", "  ")` for a `[]todo.Item`. -/
def marshalItems (l : List Item) : String := String.mk (marshalChars l)

/-- Consume an expected literal from the front of the input. -/
def expectLit : List Char → List Char → Option (List Char)
  | [], s => some s
  | _ :: _, [] => none
  | c :: cs, x :: xs => if x = c then expectLit cs xs else none

/-- Value of a decimal digit character. -/
def digitVal (c : Char) : Nat := c.toNat - 48

/-- Value of a most-significant-first digit string. -/
def digitsVal (ds : List Char) : Nat :=
  ds.foldl (fun a c => a * 10 + digitVal c) 0

/-- Parse a maximal run of decimal digits. -/
def parseNat (s : List Char) : Option (Nat × List Char) :=
  match s.takeWhile Char.isDigit with
  | [] => none
  | ds => some (digitsVal ds, s.dropWhile Char.isDigit)

/-- Parse a JSON integer (optional leading minus). -/
def parseInt (s : List Char) : Option (Int × List Char) :=
  if s.head? = some '-' then (parseNat s.tail).map (fun p => (-(p.1 : Int), p.2))
  else (parseNat s).map (fun p => ((p.1 : Int), p.2))

/-- Value of a hexadecimal digit character. -/
def hexVal (c : Char) : Option Nat :=
  if c.isDigit then some (c.toNat - 48)
  else if 'a' ≤ c ∧ c ≤ 'f' then some (c.toNat - 87)
  else if 'A' ≤ c ∧ c ≤ 'F' then some (c.toNat - 55)
  else none

/-- Parse a JSON string body after the opening quote, unescaping as the Go
decoder does, returning the decoded characters and the input after the
closing quote. -/
def parseStringBody : List Char → Option (List Char × List Char)
  | [] => none
  | c :: rest =>
    if c = '"' then some ([], rest)
    else if c = '\\' then
      match rest with
      | [] => none
      | e :: rest2 =>
        if e = '"' then (parseStringBody rest2).map (fun p => ('"' :: p.1, p.2))
        else if e = '\\' then (parseStringBody rest2).map (fun p => ('\\' :: p.1, p.2))
        else if e = '/' then (parseStringBody rest2).map (fun p => ('/' :: p.1, p.2))
        else if e = 'n' then (parseStringBody rest2).map (fun p => ('\n' :: p.1, p.2))
        else if e = 'r' then (parseStringBody rest2).map (fun p => ('\r' :: p.1, p.2))
        else if e = 't' then (parseStringBody rest2).map (fun p => ('\t' :: p.1, p.2))
        else if e = 'b' then (parseStringBody rest2).map (fun p => (Char.ofNat 8 :: p.1, p.2))
        else if e = 'f' then (parseStringBody rest2).map (fun p => (Char.ofNat 12 :: p.1, p.2))
        else if e = 'u' then
          match rest2 with
          | h1 :: h2 :: h3 :: h4 :: rest3 =>
            match hexVal h1, hexVal h2, hexVal h3, hexVal h4 with
            | some d1, some d2, some d3, some d4 =>
              (parseStringBody rest3).map
                (fun p => (Char.ofNat (((d1 * 16 + d2) * 16 + d3) * 16 + d4) :: p.1, p.2))
            | _, _, _, _ => none
          | _ => none
        else none
    else (parseStringBody rest).map (fun p => (c :: p.1, p.2))

/-- Parse a quoted JSON string. -/
def parseQuoted (s : List Char) : Option (String × List Char) :=
  match s with
  | '"' :: rest => (parseStringBody rest).map (fun p => (String.mk p.1, p.2))
  | _ => none

/-- Parse one encoded item object. -/
def parseItem (s : List Char) : Option (Item × List Char) :=
  (expectLit litId s).bind fun s1 =>
  (parseInt s1).bind fun p1 =>
  (expectLit litDesc p1.2).bind fun s2 =>
  (parseQuoted s2).bind fun p2 =>
  (expectLit litStat p2.2).bind fun s3 =>
  (parseQuoted s3).bind fun p3 =>
  (expectLit litCreated p3.2).bind fun s4 =>
  (parseQuoted s4).bind fun p4 =>
  (expectLit litEnd p4.2).map fun s5 => (⟨p1.1, p2.1, p3.1, p4.1⟩, s5)

/-- Fuelled parser for the array tail after an item: either a separator and
another item, or the closing bracket. -/
def parseItemsRestAux : Nat → List Char → Option (List Item × List Char)
  | 0, _ => none
  | fuel + 1, s =>
    match expectLit litSep s with
    | some s2 =>
      (parseItem s2).bind fun p =>
      (parseItemsRestAux fuel p.2).map fun q => (p.1 :: q.1, q.2)
    | none => (expectLit litClose s).map fun r => ([], r)

/-- Parse the whole encoded array. -/
def parseTop (s : List Char) : Option (List Item × List Char) :=
  match expectLit litEmptyArr s with
  | some r => some ([], r)
  | none =>
    (expectLit litOpen s).bind fun s1 =>
    (parseItem s1).bind fun p =>
    (parseItemsRestAux (s.length + 1) p.2).map fun q => (p.1 :: q.1, q.2)

/-- Model of `json.Unmarshal(b, &list)` for a `[]todo.Item`, requiring the
whole input to be consumed. -/
def unmarshalItems (b : String) : Except String (List Item) :=
  match parseTop b.data with
  | some (its, []) => Except.ok its
  | _ => Except.error "invalid JSON"

instance {α β : Type} [DecidableEq α] [DecidableEq β] : DecidableEq (Except α β) := fun a b =>
  match a, b with
  | Except.ok x, Except.ok y =>
    if h : x = y then isTrue (by rw [h]) else isFalse (by intro hc; cases hc; exact h rfl)
  | Except.error x, Except.error y =>
    if h : x = y then isTrue (by rw [h]) else isFalse (by intro hc; cases hc; exact h rfl)
  | Except.ok _, Except.error _ => isFalse (by intro hc; cases hc)
  | Except.error _, Except.ok _ => isFalse (by intro hc; cases hc)

example :
    unmarshalItems (marshalItems [⟨1, "a\"b", "not started", "T1"⟩, ⟨23, "x<y>&", "started", "T2"⟩])
      = Except.ok [⟨1, "a\"b", "not started", "T1"⟩, ⟨23, "x<y>&", "started", "T2"⟩] := by decide

example : unmarshalItems (marshalItems []) = Except.ok [] := by decide

example : unmarshalItems "not json" = Except.error "invalid JSON" := by decide

example : Add [] "  Buy milk " "StArTeD" "2024-01-01T00:00:00Z"
    = ([⟨1, "Buy milk", "started", "2024-01-01T00:00:00Z"⟩],
       ⟨1, "Buy milk", "started", "2024-01-01T00:00:00Z"⟩, none) := by decide

/-!
Filesystem model and the storage layer (`todo/storage.go`, context-aware
variant: `ensureParentDir`, `Save`, `Load`). The filesystem is a map from
paths to file contents plus a set of existing directories; environmental
failures are injected through `mkdirFails` (directories `os.MkdirAll` cannot
create), `readFails` (existing files `os.ReadFile` fails on), and
`writeQueue` (the success/failure dispositions of successive `os.WriteFile`
calls, in order; an exhausted queue means writes succeed). -/

/-- Characters of the path before its last slash, if any. -/
def dirOfAux : List Char → Option (List Char)
  | [] => none
  | c :: cs =>
    match dirOfAux cs with
    | some d => some (c :: d)
    | none => if c = '/' then some [] else none

/-- Model of `filepath.Dir`: the parent directory of a path. -/
def parentDir (path : String) : String :=
  match dirOfAux path.data with
  | none => "."
  | some [] => "/"
  | some d => String.mk d

/-- Filesystem state with injected environmental failures. -/
structure FS where
  dirs : List String
  files : List (String × String)
  mkdirFails : List String
  readFails : List String
  writeQueue : List Bool
deriving DecidableEq

/-- Model of `os.MkdirAll`. -/
def mkdirAll (fs : FS) (d : String) : FS × Option String :=
  if d ∈ fs.mkdirFails then (fs, some "mkdir failed")
  else ({ fs with dirs := d :: fs.dirs }, none)

/-- Model of `os.WriteFile`: consumes the next write disposition; a
successful write requires the parent directory to exist and replaces the
file contents whole (one complete write per call). -/
def writeFile (fs : FS) (path content : String) : FS × Option String :=
  let ok := fs.writeQueue.headD true
  let fs1 := { fs with writeQueue := fs.writeQueue.tail }
  if ok then
    if parentDir path ∈ fs1.dirs then
      ({ fs1 with files := (path, content) :: fs1.files }, none)
    else (fs1, some "no such file or directory")
  else (fs1, some "write failed")

/-- Model of `todo.Save` (context-aware variant, `ensureParentDir` then
`json.MarshalIndent` then `os.WriteFile`); marshalling a `[]todo.Item`
cannot fail, so the encode step is total. -/
def SaveTodo (fs : FS) (list : List Item) (path : String) : FS × Option String :=
  let m := mkdirAll fs (parentDir path)
  match m.2 with
  | some e => (m.1, some e)
  | none => writeFile m.1 path (marshalItems list)

/-- Model of `todo.Load`: a missing file yields the empty list, an empty
file yields the empty list, a read failure or a decode failure is returned
as an error. -/
def LoadTodo (fs : FS) (path : String) : Except String (List Item) :=
  match fs.files.lookup path with
  | none => Except.ok []
  | some b =>
    if path ∈ fs.readFails then Except.error "read failed"
    else if b = "" then Except.ok []
    else unmarshalItems b

/-!
Actor store (`service.ActorStore`). The single worker goroutine owns the
snapshot; callers communicate over the `cmds` channel. `serviceAll` folds
the worker loop over the sequence of requests in the order the worker
receives them: a `getReq` is answered with a copy of the snapshot, a
`setReq` replaces the snapshot with (a copy of) the submitted list, then
persists it via `todo.Save` and replies with the persistence result, and a
`stopReq` terminates the loop, leaving later requests unserviced. Copies
(`cloneList`) are the identity on immutable Lean lists. -/

/-- Request messages of the actor (`getReq`, `setReq`, `stopReq`). -/
inductive Req where
  | get : Req
  | set : List Item → Req
  | stop : Req
deriving DecidableEq

/-- Replies the actor hands back on the request's reply channel. -/
inductive Resp where
  | items : List Item → Resp
  | saved : Option String → Resp
  | stopped : Resp
deriving DecidableEq

/-- Worker-owned state: the snapshot, the filesystem, and the store path. -/
structure AState where
  snapshot : List Item
  fs : FS
  path : String
deriving DecidableEq

/-- Startup of `ActorStore.loop`: load the snapshot once from disk, treating
a load failure as the empty list. -/
def startActor (fs : FS) (path : String) : AState :=
  { snapshot := match LoadTodo fs path with | Except.ok l => l | Except.error _ => [],
    fs := fs, path := path }

/-- The worker loop of `ActorStore.loop`, applied to the requests in the
order the worker dequeues them; each request is serviced to completion
before the next is examined. -/
def serviceAll : AState → List Req → AState × List Resp
  | st, [] => (st, [])
  | st, Req.stop :: _ => (st, [Resp.stopped])
  | st, Req.get :: rs =>
    let p := serviceAll st rs
    (p.1, Resp.items st.snapshot :: p.2)
  | st, Req.set l :: rs =>
    let r := SaveTodo st.fs l st.path
    let p := serviceAll { st with snapshot := l, fs := r.1 } rs
    (p.1, Resp.saved r.2 :: p.2)

example :
    (SaveTodo ⟨["."], [], [], [], []⟩ [⟨1, "a", "started", "T"⟩] "out/todos.json").2 = none := by
  decide

example :
    LoadTodo (SaveTodo ⟨["."], [], [], [], []⟩ [⟨1, "a", "started", "T"⟩] "out/todos.json").1
      "out/todos.json" = Except.ok [⟨1, "a", "started", "T"⟩] := by decide

example :
    (serviceAll (startActor ⟨["."], [], [], [], []⟩ "out/t.json")
      [Req.set [⟨1, "a", "started", "T"⟩], Req.get]).2
    = [Resp.saved none, Resp.items [⟨1, "a", "started", "T"⟩]] := by decide

example : getNextID [⟨1, "a", "started", "t"⟩, ⟨3, "b", "started", "t"⟩] = 4 := by decide

example : (Delete [⟨1, "a", "started", "t"⟩, ⟨2, "b", "started", "t"⟩, ⟨3, "c", "started", "t"⟩] 2)
    = ([⟨1, "a", "started", "t"⟩, ⟨3, "c", "started", "t"⟩], none) := by decide

example : (Delete [⟨1, "a", "started", "t"⟩] 2).2 = some "no to-do with id 2" := by decide

/-! Lemmas about trimming. -/

/-- A string literal equals `String.mk` of its characters. -/
theorem stringMk_eq_empty_iff (l : List Char) : String.mk l = "" ↔ l = [] := by
  constructor
  · intro h
    have := congrArg String.data h
    simpa using this
  · intro h
    rw [h]

/-- An all-whitespace characterization of lists that trim to nothing. -/
theorem trimL_eq_nil_all (l : List Char) (h : trimL l = []) : ∀ c ∈ l, goIsSpace c = true := by
  unfold trimL at h
  rw [List.reverse_eq_nil_iff, List.dropWhile_eq_nil_iff] at h
  intro c hc
  have hl := List.takeWhile_append_dropWhile (p := goIsSpace) (l := l)
  rw [← hl] at hc
  rcases List.mem_append.1 hc with h1 | h2
  · exact List.mem_takeWhile_imp h1
  · exact h c (List.mem_reverse.2 h2)

/-- A non-nil trim result contains a non-whitespace character. -/
theorem trimL_has_nonspace (l : List Char) (h : trimL l ≠ []) :
    ∃ c ∈ trimL l, goIsSpace c = false := by
  have hm : (l.dropWhile goIsSpace).reverse.dropWhile goIsSpace ≠ [] := by
    intro h0
    apply h
    unfold trimL
    rw [h0]
    rfl
  obtain ⟨c, t, hct⟩ := List.exists_cons_of_ne_nil hm
  have hc : goIsSpace c = false := by
    have hh := List.head?_dropWhile_not goIsSpace (l.dropWhile goIsSpace).reverse
    rw [hct] at hh
    simpa using hh
  refine ⟨c, ?_, hc⟩
  unfold trimL
  rw [hct]
  simp

/-- Trimming an already-trimmed non-empty string cannot produce empty. -/
theorem goTrimSpace_ne_of_trim (s : String) (h : goTrimSpace s ≠ "") :
    goTrimSpace (goTrimSpace s) ≠ "" := by
  unfold goTrimSpace at *
  intro hc
  rw [stringMk_eq_empty_iff] at hc
  have hne : trimL s.data ≠ [] := by
    intro h0
    apply h
    rw [stringMk_eq_empty_iff]
    exact h0
  have hall := trimL_eq_nil_all _ hc
  obtain ⟨c, hcmem, hcns⟩ := trimL_has_nonspace s.data hne
  have := hall c hcmem
  rw [this] at hcns
  cases hcns

/-- Status validation succeeds exactly on the three lowercased values. -/
theorem statusValidate_none_iff (s : String) :
    statusValidate s = none ↔ goToLower s ∈ validStatuses := by
  unfold statusValidate
  split
  · simp_all
  · simp_all

/-! Lemmas about `getNextID`. -/

/-- The running maximum in `getNextID` never decreases. -/
theorem le_foldlMax (l : List Item) (a : Int) :
    a ≤ l.foldl (fun m t => if t.ID > m then t.ID else m) a := by
  induction l generalizing a with
  | nil => exact le_refl a
  | cons x xs ih =>
    refine le_trans ?_ (ih (if x.ID > a then x.ID else a))
    split
    · omega
    · exact le_refl a

/-- Every member's id is bounded by the running maximum of `getNextID`. -/
theorem mem_le_foldlMax (l : List Item) (a : Int) (x : Item) (hx : x ∈ l) :
    x.ID ≤ l.foldl (fun m t => if t.ID > m then t.ID else m) a := by
  induction l generalizing a with
  | nil => cases hx
  | cons y ys ih =>
    rcases List.mem_cons.1 hx with rfl | hmem
    · refine le_trans ?_ (le_foldlMax ys (if x.ID > a then x.ID else a))
      split
      · exact le_refl _
      · omega
    · exact ih _ hmem

/-- The running maximum starts at 0 and never goes below it. -/
theorem foldMaxID_nonneg (l : List Item) : 0 ≤ foldMaxID l := le_foldlMax l 0

/-- Inside the 64-bit range the wrap-around is the identity. -/
theorem wrapInt64_eq_self (z : Int) (h1 : -(2 ^ 63) ≤ z) (h2 : z < 2 ^ 63) :
    wrapInt64 z = z := by
  unfold wrapInt64
  have hp : (2 : Int) ^ 63 = 9223372036854775808 := by norm_num
  have hq : (2 : Int) ^ 64 = 18446744073709551616 := by norm_num
  rw [hp, hq]
  rw [hp] at h1 h2
  omega

/-- When the running maximum is below 2^63-1 the `max + 1` addition does
not overflow and `getNextID` is literally max+1. -/
theorem getNextID_no_overflow (l : List Item) (h : foldMaxID l < 2 ^ 63 - 1) :
    getNextID l = foldMaxID l + 1 := by
  have h0 := foldMaxID_nonneg l
  have hp : (2 : Int) ^ 63 = 9223372036854775808 := by norm_num
  refine wrapInt64_eq_self _ ?_ ?_
  · rw [hp]
    omega
  · rw [hp]
    rw [hp] at h
    omega

/-- Below the overflow boundary, the id `getNextID` assigns is strictly
greater than every id present. -/
theorem getNextID_gt (l : List Item) (hov : foldMaxID l < 2 ^ 63 - 1) (x : Item)
    (hx : x ∈ l) : x.ID < getNextID l := by
  rw [getNextID_no_overflow l hov]
  have h2 : x.ID ≤ foldMaxID l := mem_le_foldlMax l 0 x hx
  omega

/-- The first id assigned to an empty list is 1. -/
theorem getNextID_nil : getNextID [] = 1 := by decide

/-! Characterization of `Add`. -/

/-- Add with a whitespace-only description fails and changes nothing. -/
theorem Add_fail_desc (l : List Item) (d s now : String) (hd : goTrimSpace d = "") :
    Add l d s now = (l, itemZero, some "description cannot be empty") := by
  unfold Add
  simp [hd]

/-- Add with an invalid status fails and changes nothing. -/
theorem Add_fail_status (l : List Item) (d s now : String) (hd : goTrimSpace d ≠ "")
    (hs : goToLower s ∉ validStatuses) :
    Add l d s now = (l, itemZero, some ("invalid status: " ++ s)) := by
  unfold Add statusValidate
  simp [hd, hs]

/-- Add on valid input appends exactly one new item carrying the trimmed
description, the lowercased status, the next id, and the timestamp. -/
theorem Add_success (l : List Item) (d s now : String) (hd : goTrimSpace d ≠ "")
    (hs : goToLower s ∈ validStatuses) :
    Add l d s now = (l ++ [⟨getNextID l, goTrimSpace d, goToLower s, now⟩],
      ⟨getNextID l, goTrimSpace d, goToLower s, now⟩, none) := by
  unfold Add statusValidate
  simp [hd, hs]

/-- Inversion of a successful `Add`. -/
theorem Add_none_inv (l l' : List Item) (it : Item) (d s now : String)
    (h : Add l d s now = (l', it, none)) :
    goTrimSpace d ≠ "" ∧ goToLower s ∈ validStatuses ∧
      it = ⟨getNextID l, goTrimSpace d, goToLower s, now⟩ ∧ l' = l ++ [it] := by
  by_cases hd : goTrimSpace d = ""
  · rw [Add_fail_desc l d s now hd] at h
    simp at h
  · by_cases hs : goToLower s ∈ validStatuses
    · rw [Add_success l d s now hd hs] at h
      have h1 : l ++ [(⟨getNextID l, goTrimSpace d, goToLower s, now⟩ : Item)] = l' :=
        congrArg Prod.fst h
      have h2 : (⟨getNextID l, goTrimSpace d, goToLower s, now⟩ : Item) = it :=
        congrArg (fun p => p.2.1) h
      exact ⟨hd, hs, h2.symm, by rw [← h1, ← h2]⟩
    · rw [Add_fail_status l d s now hd hs] at h
      simp at h

/-! Characterization of the update helpers and `Delete`. -/

/-- The status helper fails exactly when no item has the id. -/
theorem setStatusFirst_none_iff (l : List Item) (id : Int) (st : String) :
    setStatusFirst l id st = none ↔ ∀ x ∈ l, x.ID ≠ id := by
  induction l with
  | nil => simp [setStatusFirst]
  | cons x xs ih =>
    by_cases hx : x.ID = id
    · simp [setStatusFirst, hx]
    · simp [setStatusFirst, hx, ih]

/-- Decomposition of a successful status update: the list splits at the
first item with the id, and only that item's status field changes. -/
theorem setStatusFirst_some (l : List Item) (id : Int) (st : String) (l' : List Item)
    (h : setStatusFirst l id st = some l') :
    ∃ pre x post, l = pre ++ x :: post ∧ x.ID = id ∧ (∀ y ∈ pre, y.ID ≠ id) ∧
      l' = pre ++ { x with Status := st } :: post := by
  induction l generalizing l' with
  | nil => simp [setStatusFirst] at h
  | cons a xs ih =>
    by_cases ha : a.ID = id
    · simp only [setStatusFirst, if_pos ha, Option.some.injEq] at h
      exact ⟨[], a, xs, by simp, ha, by simp, by simp [← h]⟩
    · simp only [setStatusFirst, if_neg ha, Option.map_eq_some'] at h
      obtain ⟨ys, hys, rfl⟩ := h
      obtain ⟨pre, x, post, rfl, hx, hpre, rfl⟩ := ih ys hys
      refine ⟨a :: pre, x, post, by simp, hx, ?_, by simp⟩
      intro y hy
      rcases List.mem_cons.1 hy with rfl | hy
      · exact ha
      · exact hpre y hy

/-- Forward form of the status helper on a split list. -/
theorem setStatusFirst_append (pre : List Item) (x : Item) (post : List Item) (id : Int)
    (st : String) (hx : x.ID = id) (hpre : ∀ y ∈ pre, y.ID ≠ id) :
    setStatusFirst (pre ++ x :: post) id st = some (pre ++ { x with Status := st } :: post) := by
  induction pre with
  | nil => simp [setStatusFirst, hx]
  | cons a ps ih =>
    have ha : a.ID ≠ id := hpre a (by simp)
    have hrec := ih (fun y hy => hpre y (by simp [hy]))
    simp [setStatusFirst, ha, hrec]

/-- The description helper fails exactly when no item has the id. -/
theorem setDescFirst_none_iff (l : List Item) (id : Int) (d : String) :
    setDescFirst l id d = none ↔ ∀ x ∈ l, x.ID ≠ id := by
  induction l with
  | nil => simp [setDescFirst]
  | cons x xs ih =>
    by_cases hx : x.ID = id
    · simp [setDescFirst, hx]
    · simp [setDescFirst, hx, ih]

/-- Decomposition of a successful description update. -/
theorem setDescFirst_some (l : List Item) (id : Int) (d : String) (l' : List Item)
    (h : setDescFirst l id d = some l') :
    ∃ pre x post, l = pre ++ x :: post ∧ x.ID = id ∧ (∀ y ∈ pre, y.ID ≠ id) ∧
      l' = pre ++ { x with Description := d } :: post := by
  induction l generalizing l' with
  | nil => simp [setDescFirst] at h
  | cons a xs ih =>
    by_cases ha : a.ID = id
    · simp only [setDescFirst, if_pos ha, Option.some.injEq] at h
      exact ⟨[], a, xs, by simp, ha, by simp, by simp [← h]⟩
    · simp only [setDescFirst, if_neg ha, Option.map_eq_some'] at h
      obtain ⟨ys, hys, rfl⟩ := h
      obtain ⟨pre, x, post, rfl, hx, hpre, rfl⟩ := ih ys hys
      refine ⟨a :: pre, x, post, by simp, hx, ?_, by simp⟩
      intro y hy
      rcases List.mem_cons.1 hy with rfl | hy
      · exact ha
      · exact hpre y hy

/-- Forward form of the description helper on a split list. -/
theorem setDescFirst_append (pre : List Item) (x : Item) (post : List Item) (id : Int)
    (d : String) (hx : x.ID = id) (hpre : ∀ y ∈ pre, y.ID ≠ id) :
    setDescFirst (pre ++ x :: post) id d = some (pre ++ { x with Description := d } :: post) := by
  induction pre with
  | nil => simp [setDescFirst, hx]
  | cons a ps ih =>
    have ha : a.ID ≠ id := hpre a (by simp)
    have hrec := ih (fun y hy => hpre y (by simp [hy]))
    simp [setDescFirst, ha, hrec]

/-- Delete of an absent id is an error and leaves the list unchanged. -/
theorem Delete_not_found (l : List Item) (id : Int) (h : ∀ x ∈ l, x.ID ≠ id) :
    Delete l id = (l, some ("no to-do with id " ++ toString id)) := by
  induction l with
  | nil => rfl
  | cons a xs ih =>
    have ha : a.ID ≠ id := h a (by simp)
    have hrec := ih (fun x hx => h x (by simp [hx]))
    simp [Delete, ha, hrec]

/-- Delete of a present id removes exactly the first item carrying it. -/
theorem Delete_found (pre : List Item) (x : Item) (post : List Item) (id : Int)
    (hx : x.ID = id) (hpre : ∀ y ∈ pre, y.ID ≠ id) :
    Delete (pre ++ x :: post) id = (pre ++ post, none) := by
  induction pre with
  | nil => simp [Delete, hx]
  | cons a ps ih =>
    have ha : a.ID ≠ id := hpre a (by simp)
    have hrec := ih (fun y hy => hpre y (by simp [hy]))
    simp [Delete, ha, hrec]

/-- Decomposition of a successful delete. -/
theorem Delete_none_decomp (l : List Item) (id : Int) (l' : List Item)
    (h : Delete l id = (l', none)) :
    ∃ pre x post, l = pre ++ x :: post ∧ x.ID = id ∧ (∀ y ∈ pre, y.ID ≠ id) ∧
      l' = pre ++ post := by
  induction l generalizing l' with
  | nil => simp [Delete] at h
  | cons a xs ih =>
    by_cases ha : a.ID = id
    · simp only [Delete, if_pos ha, Prod.mk.injEq] at h
      exact ⟨[], a, xs, by simp, ha, by simp, by simp [← h.1]⟩
    · rcases hDel : Delete xs id with ⟨ys, oe⟩
      cases oe with
      | none =>
        simp only [Delete, if_neg ha, hDel, Prod.mk.injEq] at h
        obtain ⟨pre, x, post, rfl, hx, hpre, rfl⟩ := ih ys hDel
        refine ⟨a :: pre, x, post, by simp, hx, ?_, by simp [← h.1]⟩
        intro y hy
        rcases List.mem_cons.1 hy with rfl | hy
        · exact ha
        · exact hpre y hy
      | some e =>
        simp only [Delete, if_neg ha, hDel, Prod.mk.injEq] at h
        cases h.2

/-- Inversion of a successful `UpdateStatus`. -/
theorem UpdateStatus_none_inv (l l' : List Item) (id : Int) (s : String)
    (h : UpdateStatus l id s = (l', none)) :
    goToLower s ∈ validStatuses ∧ setStatusFirst l id (goToLower s) = some l' := by
  rcases hv : statusValidate s with - | e
  · rcases hset : setStatusFirst l id (goToLower s) with - | l2
    · have heq : UpdateStatus l id s = (l, some ("no to-do with id " ++ toString id)) := by
        unfold UpdateStatus
        rw [hv, hset]
      rw [heq] at h
      have := congrArg Prod.snd h
      simp at this
    · have heq : UpdateStatus l id s = (l2, none) := by
        unfold UpdateStatus
        rw [hv, hset]
      rw [heq] at h
      have h1 : l2 = l' := congrArg Prod.fst h
      exact ⟨(statusValidate_none_iff s).1 hv, by rw [h1]⟩
  · have heq : UpdateStatus l id s = (l, some e) := by
      unfold UpdateStatus
      rw [hv]
    rw [heq] at h
    have := congrArg Prod.snd h
    simp at this

/-- Inversion of a successful `UpdateDescription`. -/
theorem UpdateDescription_none_inv (l l' : List Item) (id : Int) (d : String)
    (h : UpdateDescription l id d = (l', none)) :
    goTrimSpace d ≠ "" ∧ setDescFirst l id (goTrimSpace d) = some l' := by
  by_cases hd : goTrimSpace d = ""
  · have heq : UpdateDescription l id d = (l, some "new description cannot be empty") := by
      unfold UpdateDescription
      rw [if_pos hd]
    rw [heq] at h
    have := congrArg Prod.snd h
    simp at this
  · rcases hset : setDescFirst l id (goTrimSpace d) with - | l2
    · have heq : UpdateDescription l id d = (l, some ("no to-do with id " ++ toString id)) := by
        unfold UpdateDescription
        rw [if_neg hd, hset]
      rw [heq] at h
      have := congrArg Prod.snd h
      simp at this
    · have heq : UpdateDescription l id d = (l2, none) := by
        unfold UpdateDescription
        rw [if_neg hd, hset]
      rw [heq] at h
      have h1 : l2 = l' := congrArg Prod.fst h
      exact ⟨hd, by rw [h1]⟩

/-! Preservation of the data-model invariants. -/

/-- Appending the item `Add` builds preserves the three invariants, as long
as the id computation does not overflow. -/
theorem ValidList_add (l : List Item) (d s now : String) (hd : goTrimSpace d ≠ "")
    (hs : goToLower s ∈ validStatuses) (hov : foldMaxID l < 2 ^ 63 - 1)
    (hv : ValidList l) :
    ValidList (l ++ [⟨getNextID l, goTrimSpace d, goToLower s, now⟩]) := by
  obtain ⟨hu, hdesc, hstat⟩ := hv
  refine ⟨?_, ?_, ?_⟩
  · unfold uniqueIDs at *
    rw [List.map_append]
    simp only [List.map_cons, List.map_nil]
    rw [← List.concat_eq_append]
    refine List.Nodup.concat ?_ hu
    intro hmem
    obtain ⟨x, hx, hxid⟩ := List.mem_map.1 hmem
    exact absurd hxid (ne_of_lt (getNextID_gt l hov x hx))
  · intro it hit
    rcases List.mem_append.1 hit with h1 | h2
    · exact hdesc it h1
    · rcases List.mem_cons.1 h2 with rfl | h3
      · exact goTrimSpace_ne_of_trim d hd
      · cases h3
  · intro it hit
    rcases List.mem_append.1 hit with h1 | h2
    · exact hstat it h1
    · rcases List.mem_cons.1 h2 with rfl | h3
      · exact hs
      · cases h3

/-- Replacing one item's status with a valid value preserves the invariants. -/
theorem ValidList_update_status (pre post : List Item) (x : Item) (st : String)
    (hst : st ∈ validStatuses) (hv : ValidList (pre ++ x :: post)) :
    ValidList (pre ++ { x with Status := st } :: post) := by
  obtain ⟨hu, hdesc, hstat⟩ := hv
  refine ⟨?_, ?_, ?_⟩
  · unfold uniqueIDs at *
    have hmap : (pre ++ { x with Status := st } :: post).map Item.ID
        = (pre ++ x :: post).map Item.ID := by
      simp
    rw [hmap]
    exact hu
  · intro it hit
    rcases List.mem_append.1 hit with h1 | h2
    · exact hdesc it (List.mem_append.2 (Or.inl h1))
    · rcases List.mem_cons.1 h2 with rfl | h3
      · exact hdesc x (by simp)
      · exact hdesc it (by simp [h3])
  · intro it hit
    rcases List.mem_append.1 hit with h1 | h2
    · exact hstat it (List.mem_append.2 (Or.inl h1))
    · rcases List.mem_cons.1 h2 with rfl | h3
      · exact hst
      · exact hstat it (by simp [h3])

/-- Replacing one item's description with a trimmed non-empty value
preserves the invariants. -/
theorem ValidList_update_desc (pre post : List Item) (x : Item) (d : String)
    (hdv : goTrimSpace d ≠ "") (hv : ValidList (pre ++ x :: post)) :
    ValidList (pre ++ { x with Description := d } :: post) := by
  obtain ⟨hu, hdesc, hstat⟩ := hv
  refine ⟨?_, ?_, ?_⟩
  · unfold uniqueIDs at *
    have hmap : (pre ++ { x with Description := d } :: post).map Item.ID
        = (pre ++ x :: post).map Item.ID := by
      simp
    rw [hmap]
    exact hu
  · intro it hit
    rcases List.mem_append.1 hit with h1 | h2
    · exact hdesc it (List.mem_append.2 (Or.inl h1))
    · rcases List.mem_cons.1 h2 with rfl | h3
      · exact hdv
      · exact hdesc it (by simp [h3])
  · intro it hit
    rcases List.mem_append.1 hit with h1 | h2
    · exact hstat it (List.mem_append.2 (Or.inl h1))
    · rcases List.mem_cons.1 h2 with rfl | h3
      · exact hstat x (by simp)
      · exact hstat it (by simp [h3])

/-- Removing one item preserves the invariants. -/
theorem ValidList_delete (pre post : List Item) (x : Item)
    (hv : ValidList (pre ++ x :: post)) : ValidList (pre ++ post) := by
  obtain ⟨hu, hdesc, hstat⟩ := hv
  have hsub : List.Sublist (pre ++ post) (pre ++ x :: post) :=
    (List.sublist_cons_self x post).append_left pre
  exact ⟨(hsub.map Item.ID).nodup hu, fun it hit => hdesc it (hsub.subset hit),
    fun it hit => hstat it (hsub.subset hit)⟩

/-! Round trip of the JSON codec. -/

/-- A string is recovered from its own character data. -/
theorem stringMk_data (s : String) : String.mk s.data = s := by
  cases s
  rfl

/-- Expected literals are consumed exactly. -/
theorem expectLit_rt (lit r : List Char) : expectLit lit (lit ++ r) = some r := by
  induction lit with
  | nil => rfl
  | cons c cs ih => simp [expectLit, ih]

/-- Code point of a decimal digit character. -/
theorem digitChar_toNat : ∀ k < 10, (digitChar k).toNat = 48 + k := by decide

/-- Decimal digit characters are digits. -/
theorem digitChar_isDigit : ∀ k < 10, (digitChar k).isDigit = true := by decide

/-- Hexadecimal digits round-trip through `hexVal`. -/
theorem hexVal_hexDigitChar : ∀ k < 16, hexVal (hexDigitChar k) = some k := by decide

/-- The decimal printer never returns an empty string. -/
theorem natDigitsAux_ne_nil (fuel n : Nat) : natDigitsAux (fuel + 1) n ≠ [] := by
  simp only [natDigitsAux]
  split
  · simp
  · simp

/-- Every character the decimal printer emits is a digit. -/
theorem natDigitsAux_digits (fuel : Nat) : ∀ n, n < fuel →
    ∀ c ∈ natDigitsAux fuel n, c.isDigit = true := by
  induction fuel with
  | zero => omega
  | succ f ih =>
    intro n hn c hc
    simp only [natDigitsAux] at hc
    by_cases h10 : n < 10
    · rw [if_pos h10] at hc
      simp at hc
      rw [hc]
      exact digitChar_isDigit n h10
    · rw [if_neg h10] at hc
      rcases List.mem_append.1 hc with h1 | h2
      · have hdiv := Nat.div_lt_self (show 0 < n by omega) (show 1 < 10 by omega)
        exact ih (n / 10) (by omega) c h1
      · simp at h2
        rw [h2]
        exact digitChar_isDigit (n % 10) (Nat.mod_lt _ (by omega))

/-- Folding digit values over a printed number recovers the number. -/
theorem digitsVal_natDigitsAux (fuel : Nat) : ∀ n, n < fuel →
    digitsVal (natDigitsAux fuel n) = n := by
  induction fuel with
  | zero => omega
  | succ f ih =>
    intro n hn
    simp only [natDigitsAux]
    by_cases h10 : n < 10
    · rw [if_pos h10]
      have h1 : digitsVal [digitChar n] = digitVal (digitChar n) := by
        unfold digitsVal
        simp
      rw [h1]
      unfold digitVal
      rw [digitChar_toNat n h10]
      omega
    · rw [if_neg h10]
      have happ : digitsVal (natDigitsAux f (n / 10) ++ [digitChar (n % 10)])
          = digitsVal (natDigitsAux f (n / 10)) * 10 + digitVal (digitChar (n % 10)) := by
        unfold digitsVal
        rw [List.foldl_append]
        rfl
      rw [happ]
      have hdiv := Nat.div_lt_self (show 0 < n by omega) (show 1 < 10 by omega)
      rw [ih (n / 10) (by omega)]
      unfold digitVal
      rw [digitChar_toNat (n % 10) (Nat.mod_lt _ (by omega))]
      omega

/-- Digit-value fold of `natDigits`. -/
theorem digitsVal_natDigits (n : Nat) : digitsVal (natDigits n) = n :=
  digitsVal_natDigitsAux (n + 1) n (by omega)

/-- Non-emptiness of `natDigits`. -/
theorem natDigits_ne_nil (n : Nat) : natDigits n ≠ [] := natDigitsAux_ne_nil n n

/-- All characters of `natDigits` are digits. -/
theorem natDigits_digits (n : Nat) : ∀ c ∈ natDigits n, c.isDigit = true :=
  natDigitsAux_digits (n + 1) n (by omega)

/-- takeWhile over a satisfying block followed by a non-satisfying head. -/
theorem takeWhile_all_append (p : Char → Bool) (xs r : List Char)
    (hxs : ∀ c ∈ xs, p c = true) (hr : ∀ c, r.head? = some c → p c = false) :
    (xs ++ r).takeWhile p = xs ∧ (xs ++ r).dropWhile p = r := by
  induction xs with
  | nil =>
    simp only [List.nil_append]
    cases r with
    | nil => simp
    | cons c t =>
      have hc := hr c rfl
      simp [List.takeWhile_cons, List.dropWhile_cons, hc]
  | cons x xs ih =>
    have hx : p x = true := hxs x (by simp)
    have hrec := ih (fun c hc => hxs c (by simp [hc]))
    simp [List.takeWhile_cons, List.dropWhile_cons, hx, hrec.1, hrec.2]

/-- Parsing a printed natural number before a non-digit remainder. -/
theorem parseNat_rt (n : Nat) (r : List Char)
    (hr : ∀ c, r.head? = some c → c.isDigit = false) :
    parseNat (natDigits n ++ r) = some (n, r) := by
  obtain ⟨htake, hdrop⟩ := takeWhile_all_append Char.isDigit (natDigits n) r
    (natDigits_digits n) hr
  unfold parseNat
  rw [htake, hdrop]
  obtain ⟨c, cs, hcons⟩ := List.exists_cons_of_ne_nil (natDigits_ne_nil n)
  rw [hcons]
  show some (digitsVal (c :: cs), r) = some (n, r)
  rw [← hcons, digitsVal_natDigits]

/-- Parsing a printed integer before a non-digit remainder. -/
theorem parseInt_rt (z : Int) (r : List Char)
    (hr : ∀ c, r.head? = some c → c.isDigit = false) :
    parseInt (intChars z ++ r) = some (z, r) := by
  unfold intChars
  by_cases hz : z < 0
  · rw [if_pos hz]
    have h1 : parseNat (natDigits (-z).toNat ++ r) = some ((-z).toNat, r) := parseNat_rt _ r hr
    have h2 : ((-z).toNat : Int) = -z := Int.toNat_of_nonneg (by omega)
    simp [parseInt, h1, h2]
  · rw [if_neg hz]
    obtain ⟨c, cs, hcons⟩ := List.exists_cons_of_ne_nil (natDigits_ne_nil z.toNat)
    have hcdig : c.isDigit = true := natDigits_digits z.toNat c (by rw [hcons]; simp)
    have hcne : c ≠ '-' := by
      intro hc
      rw [hc] at hcdig
      exact absurd hcdig (by decide)
    have h1 : parseNat (natDigits z.toNat ++ r) = some (z.toNat, r) := parseNat_rt _ r hr
    unfold parseInt
    rw [hcons]
    simp only [List.cons_append, List.head?_cons]
    rw [if_neg (by simp [hcne])]
    rw [← List.cons_append, ← hcons, h1]
    simp [Int.toNat_of_nonneg (by omega : (0 : Int) ≤ z)]

/-- Parsing the id value that sits just before the description literal. -/
theorem parseInt_before_litDesc (z : Int) (r : List Char) :
    parseInt (intChars z ++ (litDesc ++ r)) = some (z, litDesc ++ r) := by
  refine parseInt_rt z (litDesc ++ r) ?_
  intro c hc
  rw [show (litDesc ++ r).head? = some ',' from rfl] at hc
  injection hc with h
  rw [← h]
  decide

/-- Unfolding step of the escaper. -/
theorem escapeList_cons (c : Char) (cs : List Char) :
    escapeList (c :: cs) = escapeChar c ++ escapeList cs := rfl

/-- Parsing a `\uXXXX` escape the encoder produced. -/
theorem parseStringBody_uEscape (n : Nat) (hlt : n < 65536) (t : List Char) :
    parseStringBody (uEscape n ++ t)
      = (parseStringBody t).map (fun p => (Char.ofNat n :: p.1, p.2)) := by
  have e3 : hexVal (hexDigitChar (n / 4096 % 16)) = some (n / 4096 % 16) :=
    hexVal_hexDigitChar _ (Nat.mod_lt _ (by omega))
  have e2 : hexVal (hexDigitChar (n / 256 % 16)) = some (n / 256 % 16) :=
    hexVal_hexDigitChar _ (Nat.mod_lt _ (by omega))
  have e1 : hexVal (hexDigitChar (n / 16 % 16)) = some (n / 16 % 16) :=
    hexVal_hexDigitChar _ (Nat.mod_lt _ (by omega))
  have e0 : hexVal (hexDigitChar (n % 16)) = some (n % 16) :=
    hexVal_hexDigitChar _ (Nat.mod_lt _ (by omega))
  have harith : ((n / 4096 % 16 * 16 + n / 256 % 16) * 16 + n / 16 % 16) * 16 + n % 16 = n := by
    omega
  unfold uEscape
  simp only [List.cons_append]
  conv_lhs => unfold parseStringBody
  simp [e3, e2, e1, e0, harith]

/-- Parsing an escaped string body against its closing quote. -/
theorem parseStringBody_rt (cs : List Char) (r : List Char) :
    parseStringBody (escapeList cs ++ '"' :: r) = some (cs, r) := by
  induction cs with
  | nil =>
    show parseStringBody ('"' :: r) = some ([], r)
    unfold parseStringBody
    rw [if_pos rfl]
  | cons c cs ih =>
    rw [escapeList_cons, List.append_assoc]
    unfold escapeChar
    by_cases h1 : c = '"'
    · rw [if_pos h1]
      subst h1
      show parseStringBody ('\\' :: '"' :: (escapeList cs ++ '"' :: r)) = _
      unfold parseStringBody
      simp [ih]
    · rw [if_neg h1]
      by_cases h2 : c = '\\'
      · rw [if_pos h2]
        subst h2
        show parseStringBody ('\\' :: '\\' :: (escapeList cs ++ '"' :: r)) = _
        unfold parseStringBody
        simp [ih]
      · rw [if_neg h2]
        by_cases h3 : c = '\n'
        · rw [if_pos h3]
          subst h3
          show parseStringBody ('\\' :: 'n' :: (escapeList cs ++ '"' :: r)) = _
          unfold parseStringBody
          simp [ih]
        · rw [if_neg h3]
          by_cases h4 : c = '\r'
          · rw [if_pos h4]
            subst h4
            show parseStringBody ('\\' :: 'r' :: (escapeList cs ++ '"' :: r)) = _
            unfold parseStringBody
            simp [ih]
          · rw [if_neg h4]
            by_cases h5 : c = '\t'
            · rw [if_pos h5]
              subst h5
              show parseStringBody ('\\' :: 't' :: (escapeList cs ++ '"' :: r)) = _
              unfold parseStringBody
              simp [ih]
            · rw [if_neg h5]
              by_cases h6 : c.toNat < 32 ∨ c = '<' ∨ c = '>' ∨ c = '&'
              · rw [if_pos h6]
                have hlt : c.toNat < 65536 := by
                  rcases h6 with h | h | h | h
                  · omega
                  · rw [h]; decide
                  · rw [h]; decide
                  · rw [h]; decide
                rw [parseStringBody_uEscape c.toNat hlt, ih, Char.ofNat_toNat]
                rfl
              · rw [if_neg h6]
                by_cases h7 : c.toNat = 8232 ∨ c.toNat = 8233
                · rw [if_pos h7]
                  have hlt : c.toNat < 65536 := by omega
                  rw [parseStringBody_uEscape c.toNat hlt, ih, Char.ofNat_toNat]
                  rfl
                · rw [if_neg h7]
                  simp only [List.cons_append, List.nil_append]
                  unfold parseStringBody
                  rw [if_neg h1, if_neg h2, ih]
                  rfl

/-- Parsing a quoted string literal. -/
theorem parseQuoted_rt (s : String) (r : List Char) :
    parseQuoted (quoteChars s ++ r) = some (s, r) := by
  unfold quoteChars
  rw [List.cons_append, List.append_assoc,
    show ['"'] ++ r = '"' :: r from rfl]
  show (parseStringBody (escapeList s.data ++ '"' :: r)).map
      (fun p => (String.mk p.1, p.2)) = some (s, r)
  rw [parseStringBody_rt]
  simp [stringMk_data]

/-- Parsing one encoded item before an arbitrary remainder. -/
theorem parseItem_rt (it : Item) (r : List Char) :
    parseItem (itemChars it ++ r) = some (it, r) := by
  unfold parseItem itemChars
  simp only [List.append_assoc]
  rw [expectLit_rt]
  simp only [Option.some_bind]
  rw [parseInt_before_litDesc]
  simp only [Option.some_bind]
  rw [expectLit_rt]
  simp only [Option.some_bind]
  rw [parseQuoted_rt]
  simp only [Option.some_bind]
  rw [expectLit_rt]
  simp only [Option.some_bind]
  rw [parseQuoted_rt]
  simp only [Option.some_bind]
  rw [expectLit_rt]
  simp only [Option.some_bind]
  rw [parseQuoted_rt]
  simp only [Option.some_bind]
  rw [expectLit_rt]
  simp only [Option.map_some']

/-- Parsing the encoded array tail, with sufficient fuel. -/
theorem parseItemsRestAux_rt (its : List Item) : ∀ (fuel : Nat) (r : List Char),
    its.length < fuel →
    parseItemsRestAux fuel (itemsRestChars its ++ r) = some (its, r) := by
  induction its with
  | nil =>
    intro fuel r hf
    obtain ⟨f, rfl⟩ : ∃ f, fuel = f + 1 := ⟨fuel - 1, by omega⟩
    have hsep : expectLit litSep (itemsRestChars [] ++ r) = none := rfl
    unfold parseItemsRestAux
    rw [hsep]
    show (expectLit litClose (litClose ++ r)).map (fun r => (([] : List Item), r)) = some ([], r)
    rw [expectLit_rt]
    rfl
  | cons it its ih =>
    intro fuel r hf
    obtain ⟨f, rfl⟩ : ∃ f, fuel = f + 1 := ⟨fuel - 1, by omega⟩
    have hf' : its.length < f := by
      simp only [List.length_cons] at hf
      omega
    have hrec := ih f r hf'
    show parseItemsRestAux (f + 1) ((litSep ++ itemChars it ++ itemsRestChars its) ++ r)
        = some (it :: its, r)
    simp only [List.append_assoc]
    unfold parseItemsRestAux
    rw [expectLit_rt]
    show (parseItem (itemChars it ++ (itemsRestChars its ++ r))).bind _ = _
    rw [parseItem_rt]
    simp only [Option.some_bind]
    rw [hrec]
    rfl

/-- Each item contributes at least one character to the encoded tail. -/
theorem itemsRestChars_length (its : List Item) :
    its.length ≤ (itemsRestChars its).length := by
  induction its with
  | nil => simp
  | cons it its ih =>
    simp only [itemsRestChars, List.length_append, List.length_cons]
    have h4 : litSep.length = 4 := rfl
    omega

/-- Parsing the encoded array of a non-empty list. -/
theorem parseTop_marshal (it : Item) (its : List Item) :
    parseTop (marshalChars (it :: its)) = some (it :: its, []) := by
  have hsplit : marshalChars (it :: its) = litOpen ++ (itemChars it ++ itemsRestChars its) := by
    simp [marshalChars]
  have hne : expectLit litEmptyArr (litOpen ++ (itemChars it ++ itemsRestChars its)) = none := rfl
  have hlen2 : its.length < (litOpen ++ (itemChars it ++ itemsRestChars its)).length + 1 := by
    have h1 := itemsRestChars_length its
    simp only [List.length_append]
    omega
  have hrest : parseItemsRestAux ((litOpen ++ (itemChars it ++ itemsRestChars its)).length + 1)
      (itemsRestChars its) = some (its, []) := by
    have h := parseItemsRestAux_rt its _ [] hlen2
    rw [List.append_nil] at h
    exact h
  rw [hsplit]
  unfold parseTop
  rw [hne]
  rw [expectLit_rt]
  simp only [Option.some_bind]
  rw [parseItem_rt]
  simp only [Option.some_bind]
  rw [hrest]
  rfl

/-- Decoding inverts encoding for every item list. -/
theorem unmarshal_marshal (l : List Item) : unmarshalItems (marshalItems l) = Except.ok l := by
  cases l with
  | nil => decide
  | cons it its =>
    unfold unmarshalItems marshalItems
    rw [show (String.mk (marshalChars (it :: its))).data = marshalChars (it :: its) from rfl]
    rw [parseTop_marshal]

/-- The encoder never produces an empty string. -/
theorem marshalItems_ne_empty (l : List Item) : marshalItems l ≠ "" := by
  cases l with
  | nil => decide
  | cons it its =>
    unfold marshalItems
    rw [Ne, stringMk_eq_empty_iff]
    rw [show marshalChars (it :: its) = litOpen ++ (itemChars it ++ itemsRestChars its) from by
      simp [marshalChars]]
    intro h
    have h1 : litOpen = [] := (List.append_eq_nil.1 h).1
    exact absurd h1 (by decide)

/-! Storage-layer lemmas. -/

/-- Filesystem state after a save whose `os.WriteFile` call failed: the
parent directory was still created, the files are untouched. -/
def fsAfterWriteFail (fs : FS) (path : String) : FS :=
  { fs with
      dirs := parentDir path :: fs.dirs
      writeQueue := fs.writeQueue.tail }

/-- Filesystem state after a successful save: the parent directory exists
and the file holds exactly the encoded list. -/
def fsAfterWriteOk (fs : FS) (l : List Item) (path : String) : FS :=
  { fs with
      dirs := parentDir path :: fs.dirs
      writeQueue := fs.writeQueue.tail
      files := (path, marshalItems l) :: fs.files }

/-- Complete case analysis of `SaveTodo` against the injected environment:
the directory creation fails, or the write fails, or the save succeeds and
the file now holds exactly the encoded list. -/
theorem SaveTodo_cases (fs : FS) (l : List Item) (path : String) :
    (parentDir path ∈ fs.mkdirFails ∧ SaveTodo fs l path = (fs, some "mkdir failed")) ∨
    (parentDir path ∉ fs.mkdirFails ∧ fs.writeQueue.headD true = false ∧
      SaveTodo fs l path = (fsAfterWriteFail fs path, some "write failed")) ∨
    (parentDir path ∉ fs.mkdirFails ∧ fs.writeQueue.headD true = true ∧
      SaveTodo fs l path = (fsAfterWriteOk fs l path, none)) := by
  by_cases hmk : parentDir path ∈ fs.mkdirFails
  · left
    refine ⟨hmk, ?_⟩
    unfold SaveTodo mkdirAll
    rw [if_pos hmk]
  · by_cases hw : fs.writeQueue.headD true = true
    · right; right
      refine ⟨hmk, hw, ?_⟩
      have hw2 : fs.writeQueue.head?.getD true = true := by simpa using hw
      unfold SaveTodo mkdirAll writeFile fsAfterWriteOk
      rw [if_neg hmk]
      simp [hw2]
    · right; left
      have hw' : fs.writeQueue.headD true = false := by
        cases h : fs.writeQueue.headD true
        · rfl
        · exact absurd h hw
      refine ⟨hmk, hw', ?_⟩
      have hw2 : fs.writeQueue.head?.getD true = false := by simpa using hw'
      unfold SaveTodo mkdirAll writeFile fsAfterWriteFail
      rw [if_neg hmk]
      simp [hw2]

/-- A successful save reaches the write and records the encoded file. -/
theorem SaveTodo_success (fs : FS) (l : List Item) (path : String)
    (hmk : parentDir path ∉ fs.mkdirFails) (hw : fs.writeQueue.headD true = true) :
    SaveTodo fs l path = (fsAfterWriteOk fs l path, none) := by
  rcases SaveTodo_cases fs l path with ⟨h1, h2⟩ | ⟨h1, h2, h3⟩ | ⟨h1, h2, h3⟩
  · exact absurd h1 hmk
  · rw [hw] at h2
    cases h2
  · exact h3

/-- The saved file can be looked up immediately after the write. -/
theorem fsAfterWriteOk_lookup (fs : FS) (l : List Item) (path : String) :
    (fsAfterWriteOk fs l path).files.lookup path = some (marshalItems l) := by
  unfold fsAfterWriteOk
  simp [List.lookup]

/-- A save that returns an error leaves the stored files untouched. -/
theorem SaveTodo_err_files (fs : FS) (l : List Item) (path : String) (e : String)
    (h : SaveTodo fs l path = ((SaveTodo fs l path).1, some e)) :
    (SaveTodo fs l path).1.files = fs.files := by
  rcases SaveTodo_cases fs l path with ⟨h1, h2⟩ | ⟨h1, h2, h3⟩ | ⟨h1, h2, h3⟩
  · rw [h2]
  · rw [h3]
    rfl
  · rw [h3] at h
    have := congrArg Prod.snd h
    simp at this

/-- Loading a missing file yields the empty list with no error. -/
theorem LoadTodo_missing (fs : FS) (path : String) (h : fs.files.lookup path = none) :
    LoadTodo fs path = Except.ok [] := by
  unfold LoadTodo
  rw [h]

/-- Loading an existing file dispatches on read failure and emptiness. -/
theorem LoadTodo_found (fs : FS) (path b : String) (h : fs.files.lookup path = some b) :
    LoadTodo fs path = if path ∈ fs.readFails then Except.error "read failed"
      else if b = "" then Except.ok [] else unmarshalItems b := by
  unfold LoadTodo
  rw [h]

/-- Round trip through the disk: a successful save followed by a load
returns exactly the saved list. -/
theorem LoadTodo_SaveTodo (fs : FS) (l : List Item) (path : String)
    (hmk : parentDir path ∉ fs.mkdirFails) (hw : fs.writeQueue.headD true = true)
    (hr : path ∉ fs.readFails) :
    LoadTodo (SaveTodo fs l path).1 path = Except.ok l := by
  rw [SaveTodo_success fs l path hmk hw]
  show LoadTodo (fsAfterWriteOk fs l path) path = Except.ok l
  rw [LoadTodo_found _ _ _ (fsAfterWriteOk_lookup fs l path)]
  have hrf : path ∉ (fsAfterWriteOk fs l path).readFails := hr
  rw [if_neg hrf, if_neg (marshalItems_ne_empty l), unmarshal_marshal]

/-! Actor-loop lemmas. -/

/-- Worker state reached by servicing a `setReq` carrying `l`: the snapshot
is replaced by (a copy of) the submitted list before the write outcome is
known, and the filesystem evolves by the `todo.Save` call. -/
def setState (st : AState) (l : List Item) : AState :=
  { st with
      snapshot := l
      fs := (SaveTodo st.fs l st.path).1 }

/-- Step equation of the loop for a read request. -/
theorem serviceAll_get_cons (st : AState) (rs : List Req) :
    serviceAll st (Req.get :: rs)
      = ((serviceAll st rs).1, Resp.items st.snapshot :: (serviceAll st rs).2) := by
  conv_lhs => unfold serviceAll

/-- Step equation of the loop for a write request. -/
theorem serviceAll_set_cons (st : AState) (l : List Item) (rs : List Req) :
    serviceAll st (Req.set l :: rs)
      = ((serviceAll (setState st l) rs).1,
         Resp.saved (SaveTodo st.fs l st.path).2 :: (serviceAll (setState st l) rs).2) := by
  unfold setState
  conv_lhs => unfold serviceAll

/-- Step equation of the loop for a stop request: the loop terminates and
later requests are left unserviced. -/
theorem serviceAll_stop_cons (st : AState) (rs : List Req) :
    serviceAll st (Req.stop :: rs) = (st, [Resp.stopped]) := by
  conv_lhs => unfold serviceAll

/-- The store path never changes while the loop runs. -/
theorem serviceAll_path (st : AState) (reqs : List Req) :
    (serviceAll st reqs).1.path = st.path := by
  induction reqs generalizing st with
  | nil => rfl
  | cons r rs ih =>
    cases r with
    | get =>
      rw [serviceAll_get_cons]
      exact ih st
    | set l =>
      rw [serviceAll_set_cons]
      exact ih (setState st l)
    | stop =>
      rw [serviceAll_stop_cons]

/-- The loop on an empty queue returns the state unchanged. -/
theorem serviceAll_nil (st : AState) : serviceAll st [] = (st, []) := by
  conv_lhs => unfold serviceAll

/-- The loop over concatenated request sequences (no stop in the first
part) services the first part, then the second from the reached state. -/
theorem serviceAll_append (st : AState) (l1 l2 : List Req) (h : Req.stop ∉ l1) :
    serviceAll st (l1 ++ l2)
      = ((serviceAll (serviceAll st l1).1 l2).1,
         (serviceAll st l1).2 ++ (serviceAll (serviceAll st l1).1 l2).2) := by
  induction l1 generalizing st with
  | nil => simp [serviceAll_nil]
  | cons r rs ih =>
    have hrs : Req.stop ∉ rs := fun hh => h (by simp [hh])
    cases r with
    | stop => exact absurd (by simp) h
    | get =>
      rw [List.cons_append, serviceAll_get_cons, serviceAll_get_cons, ih st hrs]
      rfl
    | set l =>
      rw [List.cons_append, serviceAll_set_cons, serviceAll_set_cons, ih (setState st l) hrs]
      rfl

/-- A block of read requests leaves the state unchanged and replies to each
with the current snapshot. -/
theorem serviceAll_gets (st : AState) (mid rest : List Req) (h : ∀ r ∈ mid, r = Req.get) :
    serviceAll st (mid ++ rest)
      = ((serviceAll st rest).1,
         mid.map (fun _ => Resp.items st.snapshot) ++ (serviceAll st rest).2) := by
  induction mid with
  | nil => simp
  | cons r rs ih =>
    have hr : r = Req.get := h r (by simp)
    subst hr
    rw [List.cons_append, serviceAll_get_cons, ih (fun r hr => h r (by simp [hr]))]
    simp

/-- Disk integrity: after any request sequence, the store file holds either
its initial content or the complete encoding of one single submitted list —
never an interleaving of two saves. -/
theorem serviceAll_disk (st : AState) (reqs : List Req) :
    (serviceAll st reqs).1.fs.files.lookup st.path = st.fs.files.lookup st.path ∨
    ∃ l, Req.set l ∈ reqs ∧
      (serviceAll st reqs).1.fs.files.lookup st.path = some (marshalItems l) := by
  induction reqs generalizing st with
  | nil =>
    left
    rw [serviceAll_nil]
  | cons r rs ih =>
    cases r with
    | stop =>
      left
      rw [serviceAll_stop_cons]
    | get =>
      rw [serviceAll_get_cons]
      rcases ih st with h | ⟨l, hmem, h⟩
      · left
        exact h
      · right
        exact ⟨l, by simp [hmem], h⟩
    | set l =>
      rw [serviceAll_set_cons]
      have hpath : (setState st l).path = st.path := rfl
      rcases ih (setState st l) with h | ⟨l', hmem, h⟩
      · rw [hpath] at h
        rcases SaveTodo_cases st.fs l st.path with ⟨h1, h2⟩ | ⟨h1, h2, h3⟩ | ⟨h1, h2, h3⟩
        · left
          have hfs : (setState st l).fs.files = st.fs.files := by
            unfold setState
            rw [h2]
          rw [hfs] at h
          exact h
        · left
          have hfs : (setState st l).fs.files = st.fs.files := by
            unfold setState
            rw [h3]
            rfl
          rw [hfs] at h
          exact h
        · right
          refine ⟨l, by simp, ?_⟩
          have hfs : (setState st l).fs.files.lookup st.path = some (marshalItems l) := by
            unfold setState
            rw [h3]
            exact fsAfterWriteOk_lookup st.fs l st.path
          rw [hfs] at h
          exact h
      · right
        rw [hpath] at h
        exact ⟨l', by simp [hmem], h⟩

/-! Claim theorems. -/

/-- Concrete filesystem with the current directory present and no injected
failures. -/
def fs0 : FS := ⟨["."], [], [], [], []⟩

/-- Concrete item used in concrete scenarios. -/
def itemA : Item := ⟨1, "buy milk", "started", "2024-01-01T00:00:00Z"⟩

/-- C1 counterexample: the claim says that for every Save that returned
successfully, every Load issued strictly afterwards returns exactly the
list passed to that Save. Against the worker loop this fails as soon as
another Save intervenes: below, `Save []` returns successfully (first
response), yet the strictly later Load returns `[itemA]`, the list of the
second Save, not `[]`. -/
theorem C1_read_your_writes_counterexample :
    (serviceAll (startActor fs0 "out/t.json")
        [Req.set [], Req.set [itemA], Req.get]).2
      = [Resp.saved none, Resp.saved none, Resp.items [itemA]]
    ∧ [itemA] ≠ ([] : List Item) := by
  constructor
  · decide
  · decide

/-- C1 (amended): the single worker services requests one at a time in the
order it observes them; a Load issued strictly after a successful Save with
no other Save serviced in between returns exactly that Save's list; and the
disk file always holds either its initial content or the complete encoding
of one single submitted list, so no two Saves' disk writes interleave. -/
theorem C1_actor_serialized :
    (∀ (st : AState) (pre mid post : List Req) (l : List Item),
      Req.stop ∉ pre → (∀ r ∈ mid, r = Req.get) →
      ∃ e rest,
        (serviceAll st (pre ++ Req.set l :: (mid ++ Req.get :: post))).2
          = (serviceAll st pre).2
            ++ Resp.saved e :: (mid.map (fun _ => Resp.items l) ++ Resp.items l :: rest)) ∧
    (∀ (st : AState) (reqs : List Req),
      (serviceAll st reqs).1.fs.files.lookup st.path = st.fs.files.lookup st.path ∨
      ∃ l, Req.set l ∈ reqs ∧
        (serviceAll st reqs).1.fs.files.lookup st.path = some (marshalItems l)) := by
  refine ⟨?_, serviceAll_disk⟩
  intro st pre mid post l hpre hmid
  refine ⟨(SaveTodo (serviceAll st pre).1.fs l (serviceAll st pre).1.path).2,
    (serviceAll (setState (serviceAll st pre).1 l) post).2, ?_⟩
  rw [serviceAll_append st pre _ hpre, serviceAll_set_cons,
    serviceAll_gets _ mid _ hmid, serviceAll_get_cons]
  simp [setState]

/-- Witness for the amended C1 theorem at a concrete trace. -/
theorem C1_actor_serialized_witness :
    (∃ e rest,
      (serviceAll (startActor fs0 "out/t.json")
          ([] ++ Req.set [itemA] :: ([Req.get] ++ Req.get :: []))).2
        = (serviceAll (startActor fs0 "out/t.json") []).2
          ++ Resp.saved e
            :: ([Req.get].map (fun _ => Resp.items [itemA]) ++ Resp.items [itemA] :: rest)) ∧
    ((serviceAll (startActor fs0 "out/t.json") [Req.set [itemA], Req.get]).1.fs.files.lookup
        (startActor fs0 "out/t.json").path
      = (startActor fs0 "out/t.json").fs.files.lookup (startActor fs0 "out/t.json").path ∨
    ∃ l, Req.set l ∈ [Req.set [itemA], Req.get] ∧
      (serviceAll (startActor fs0 "out/t.json") [Req.set [itemA], Req.get]).1.fs.files.lookup
        (startActor fs0 "out/t.json").path = some (marshalItems l)) :=
  ⟨C1_actor_serialized.1 (startActor fs0 "out/t.json") [] [Req.get] [] [itemA]
      (by decide) (by decide),
   C1_actor_serialized.2 (startActor fs0 "out/t.json") [Req.set [itemA], Req.get]⟩

/-- C2 counterexample: the claim fails on the program because Go's 64-bit
`max + 1` wraps. The list below satisfies all three data-model invariants
(ids -2^63 and 2^63-1 are distinct), Add succeeds, and the appended item
carries the wrapped id -2^63, duplicating an existing id. -/
theorem C2_invariants_counterexample :
    ValidList [(⟨-(2 ^ 63), "a", "started", "T"⟩ : Item), ⟨2 ^ 63 - 1, "b", "started", "T"⟩] ∧
    Add [(⟨-(2 ^ 63), "a", "started", "T"⟩ : Item), ⟨2 ^ 63 - 1, "b", "started", "T"⟩]
        "c" "started" "T"
      = ([⟨-(2 ^ 63), "a", "started", "T"⟩, ⟨2 ^ 63 - 1, "b", "started", "T"⟩,
          ⟨-(2 ^ 63), "c", "started", "T"⟩],
         ⟨-(2 ^ 63), "c", "started", "T"⟩, none) ∧
    ¬ ValidList [(⟨-(2 ^ 63), "a", "started", "T"⟩ : Item), ⟨2 ^ 63 - 1, "b", "started", "T"⟩,
        ⟨-(2 ^ 63), "c", "started", "T"⟩] := by
  refine ⟨by decide, by decide, by decide⟩

/-- C2 (amended): starting from any list satisfying the three data-model
invariants (unique ids, non-whitespace descriptions, valid statuses), every
successful UpdateDescription, UpdateStatus and Delete returns a list that
again satisfies all three invariants, and so does a successful Add provided
the running maximum of the existing ids is below 2^63-1, so that Go's
64-bit `max + 1` does not overflow. -/
theorem C2_invariants_preserved :
    (∀ (l l' : List Item) (it : Item) (d s now : String),
      ValidList l → foldMaxID l < 2 ^ 63 - 1 →
      Add l d s now = (l', it, none) → ValidList l') ∧
    (∀ (l l' : List Item) (id : Int) (d : String),
      ValidList l → UpdateDescription l id d = (l', none) → ValidList l') ∧
    (∀ (l l' : List Item) (id : Int) (s : String),
      ValidList l → UpdateStatus l id s = (l', none) → ValidList l') ∧
    (∀ (l l' : List Item) (id : Int),
      ValidList l → Delete l id = (l', none) → ValidList l') := by
  refine ⟨?_, ?_, ?_, ?_⟩
  · intro l l' it d s now hv hov h
    obtain ⟨hd, hs, hit, rfl⟩ := Add_none_inv l l' it d s now h
    subst hit
    exact ValidList_add l d s now hd hs hov hv
  · intro l l' id d hv h
    obtain ⟨hd, hset⟩ := UpdateDescription_none_inv l l' id d h
    obtain ⟨pre, x, post, rfl, hx, hpre, rfl⟩ := setDescFirst_some _ _ _ _ hset
    exact ValidList_update_desc pre post x _ (goTrimSpace_ne_of_trim d hd) hv
  · intro l l' id s hv h
    obtain ⟨hs, hset⟩ := UpdateStatus_none_inv l l' id s h
    obtain ⟨pre, x, post, rfl, hx, hpre, rfl⟩ := setStatusFirst_some _ _ _ _ hset
    exact ValidList_update_status pre post x _ hs hv
  · intro l l' id hv h
    obtain ⟨pre, x, post, rfl, hx, hpre, rfl⟩ := Delete_none_decomp l id l' h
    exact ValidList_delete pre post x hv

/-- Witness for C2 instantiating every conjunct at concrete lists. -/
theorem C2_invariants_preserved_witness :
    ValidList [(⟨1, "a", "started", "T"⟩ : Item)] ∧
    ValidList [(⟨1, "b", "started", "T"⟩ : Item)] ∧
    ValidList [(⟨1, "a", "completed", "T"⟩ : Item)] ∧
    ValidList ([] : List Item) :=
  ⟨C2_invariants_preserved.1 [] [⟨1, "a", "started", "T"⟩] ⟨1, "a", "started", "T"⟩
      "a" "started" "T" (by decide) (by decide) (by decide),
   C2_invariants_preserved.2.1 [⟨1, "a", "started", "T"⟩] [⟨1, "b", "started", "T"⟩]
      1 "b" (by decide) (by decide),
   C2_invariants_preserved.2.2.1 [⟨1, "a", "started", "T"⟩] [⟨1, "a", "completed", "T"⟩]
      1 "completed" (by decide) (by decide),
   C2_invariants_preserved.2.2.2 [⟨1, "a", "started", "T"⟩] [] 1 (by decide) (by decide)⟩

/-- C3 counterexample: the strictly-greater conclusion fails on the
program. With an item of id 2^63-1 (reachable from a hand-crafted JSON
file), Go's `max + 1` wraps: Add succeeds, the new id is -2^63, which is
not greater than the id already present. -/
theorem C3_next_id_counterexample :
    getNextID [(⟨2 ^ 63 - 1, "a", "started", "T"⟩ : Item)] = -(2 ^ 63) ∧
    (Add [(⟨2 ^ 63 - 1, "a", "started", "T"⟩ : Item)] "b" "started" "T").2.2 = none ∧
    (Add [(⟨2 ^ 63 - 1, "a", "started", "T"⟩ : Item)] "b" "started" "T").2.1.ID = -(2 ^ 63) ∧
    ¬ ((⟨2 ^ 63 - 1, "a", "started", "T"⟩ : Item).ID
        < (Add [(⟨2 ^ 63 - 1, "a", "started", "T"⟩ : Item)] "b" "started" "T").2.1.ID) := by
  refine ⟨by decide, by decide, by decide, by decide⟩

/-- C3 (amended): whenever the running maximum of the existing ids is below
2^63-1 — so Go's 64-bit `max + 1` does not overflow — a successful Add
assigns id `getNextID list` = max(existing ids)+1 (1 on the empty list),
strictly greater than every id already present, even after prior deletions;
a list with ids 1 and 3 yields 4, not 3. -/
theorem C3_next_id :
    (∀ (l l' : List Item) (it : Item) (d s now : String),
      foldMaxID l < 2 ^ 63 - 1 →
      Add l d s now = (l', it, none) →
      it.ID = getNextID l ∧ getNextID l = foldMaxID l + 1 ∧ ∀ x ∈ l, x.ID < it.ID) ∧
    getNextID [] = 1 ∧
    getNextID [⟨1, "a", "started", "T"⟩, ⟨3, "b", "started", "T"⟩] = 4 := by
  refine ⟨?_, by decide, by decide⟩
  intro l l' it d s now hov h
  obtain ⟨hd, hs, hit, rfl⟩ := Add_none_inv l l' it d s now h
  subst hit
  exact ⟨rfl, getNextID_no_overflow l hov, fun x hx => getNextID_gt l hov x hx⟩

/-- Witness for C3 at a list with ids 1 and 3 (after a deletion of 2). -/
theorem C3_next_id_witness :
    (⟨4, "c", "started", "T"⟩ : Item).ID
        = getNextID [⟨1, "a", "started", "T"⟩, ⟨3, "b", "started", "T"⟩]
    ∧ getNextID [⟨1, "a", "started", "T"⟩, ⟨3, "b", "started", "T"⟩]
        = foldMaxID [⟨1, "a", "started", "T"⟩, ⟨3, "b", "started", "T"⟩] + 1
    ∧ ∀ x ∈ [(⟨1, "a", "started", "T"⟩ : Item), ⟨3, "b", "started", "T"⟩],
        x.ID < (⟨4, "c", "started", "T"⟩ : Item).ID :=
  C3_next_id.1 [⟨1, "a", "started", "T"⟩, ⟨3, "b", "started", "T"⟩]
    [⟨1, "a", "started", "T"⟩, ⟨3, "b", "started", "T"⟩, ⟨4, "c", "started", "T"⟩]
    ⟨4, "c", "started", "T"⟩ "c" "started" "T" (by decide) (by decide)

/-- C4: Add trims the description and fails on a whitespace-only one, fails
on a status that is not one of the three values case-insensitively, and
otherwise appends exactly one item carrying the trimmed description and the
lowercased status; Add with status `"StArTeD"` stores `"started"`. -/
theorem C4_add_validation :
    (∀ (l : List Item) (d s now : String), goTrimSpace d = "" →
      Add l d s now = (l, itemZero, some "description cannot be empty")) ∧
    (∀ (l : List Item) (d s now : String), goTrimSpace d ≠ "" →
      goToLower s ∉ validStatuses →
      Add l d s now = (l, itemZero, some ("invalid status: " ++ s))) ∧
    (∀ (l : List Item) (d s now : String), goTrimSpace d ≠ "" →
      goToLower s ∈ validStatuses →
      Add l d s now = (l ++ [⟨getNextID l, goTrimSpace d, goToLower s, now⟩],
        ⟨getNextID l, goTrimSpace d, goToLower s, now⟩, none)) ∧
    (Add [] "x" "StArTeD" "T").2.1.Status = "started" :=
  ⟨Add_fail_desc, Add_fail_status, Add_success, by decide⟩

/-- Witness for C4 instantiating every conjunct. -/
theorem C4_add_validation_witness :
    Add [] "  " "started" "T" = ([], itemZero, some "description cannot be empty") ∧
    Add [] "x" "done" "T" = ([], itemZero, some ("invalid status: " ++ "done")) ∧
    Add [] " Buy milk " "StArTeD" "T"
      = ([⟨getNextID [], goTrimSpace " Buy milk ", goToLower "StArTeD", "T"⟩],
         ⟨getNextID [], goTrimSpace " Buy milk ", goToLower "StArTeD", "T"⟩, none) :=
  ⟨C4_add_validation.1 [] "  " "started" "T" (by decide),
   C4_add_validation.2.1 [] "x" "done" "T" (by decide) (by decide),
   C4_add_validation.2.2.1 [] " Buy milk " "StArTeD" "T" (by decide) (by decide)⟩

/-- C5: Save ensures the parent directory of the path exists (creating it
when necessary) before encoding the list as an indented JSON array and
writing the file whole, and a failing write is reported as an error. -/
theorem C5_save_behavior :
    (∀ (fs : FS) (l : List Item) (path : String),
      parentDir path ∉ fs.mkdirFails → fs.writeQueue.headD true = true →
      SaveTodo fs l path = (fsAfterWriteOk fs l path, none) ∧
      parentDir path ∈ (fsAfterWriteOk fs l path).dirs ∧
      (fsAfterWriteOk fs l path).files.lookup path = some (marshalItems l)) ∧
    (∀ (fs : FS) (l : List Item) (path : String),
      parentDir path ∉ fs.mkdirFails → fs.writeQueue.headD true = false →
      SaveTodo fs l path = (fsAfterWriteFail fs path, some "write failed")) := by
  constructor
  · intro fs l path hmk hw
    refine ⟨SaveTodo_success fs l path hmk hw, ?_, fsAfterWriteOk_lookup fs l path⟩
    unfold fsAfterWriteOk
    simp
  · intro fs l path hmk hw
    rcases SaveTodo_cases fs l path with ⟨h1, h2⟩ | ⟨h1, h2, h3⟩ | ⟨h1, h2, h3⟩
    · exact absurd h1 hmk
    · exact h3
    · rw [hw] at h2
      cases h2

/-- Witness for C5 on a fresh filesystem without the `out` directory, and
on one whose next write fails. -/
theorem C5_save_behavior_witness :
    (SaveTodo fs0 [itemA] "out/t.json" = (fsAfterWriteOk fs0 [itemA] "out/t.json", none) ∧
     parentDir "out/t.json" ∈ (fsAfterWriteOk fs0 [itemA] "out/t.json").dirs ∧
     (fsAfterWriteOk fs0 [itemA] "out/t.json").files.lookup "out/t.json"
       = some (marshalItems [itemA])) ∧
    SaveTodo ⟨["."], [], [], [], [false]⟩ [itemA] "out/t.json"
      = (fsAfterWriteFail ⟨["."], [], [], [], [false]⟩ "out/t.json", some "write failed") :=
  ⟨C5_save_behavior.1 fs0 [itemA] "out/t.json" (by decide) (by decide),
   C5_save_behavior.2 ⟨["."], [], [], [], [false]⟩ [itemA] "out/t.json" (by decide) (by decide)⟩

/-- C6: Load returns the empty list and no error for a missing file and for
an existing zero-byte file; a read failure on an existing file and a decode
failure are returned to the caller as errors. -/
theorem C6_load_behavior :
    (∀ (fs : FS) (path : String), fs.files.lookup path = none →
      LoadTodo fs path = Except.ok []) ∧
    (∀ (fs : FS) (path : String), fs.files.lookup path = some "" →
      path ∉ fs.readFails → LoadTodo fs path = Except.ok []) ∧
    (∀ (fs : FS) (path b : String), fs.files.lookup path = some b →
      path ∈ fs.readFails → LoadTodo fs path = Except.error "read failed") ∧
    (∀ (fs : FS) (path b e : String), fs.files.lookup path = some b →
      path ∉ fs.readFails → b ≠ "" → unmarshalItems b = Except.error e →
      LoadTodo fs path = Except.error e) := by
  refine ⟨LoadTodo_missing, ?_, ?_, ?_⟩
  · intro fs path h hr
    rw [LoadTodo_found fs path "" h, if_neg hr, if_pos rfl]
  · intro fs path b h hr
    rw [LoadTodo_found fs path b h, if_pos hr]
  · intro fs path b e h hr hb hdec
    rw [LoadTodo_found fs path b h, if_neg hr, if_neg hb, hdec]

/-- Witness for C6: a missing file, a zero-byte file, an unreadable file,
and a file holding invalid JSON. -/
theorem C6_load_behavior_witness :
    LoadTodo fs0 "out/t.json" = Except.ok [] ∧
    LoadTodo ⟨["."], [("t.json", "")], [], [], []⟩ "t.json" = Except.ok [] ∧
    LoadTodo ⟨["."], [("t.json", "[]")], [], ["t.json"], []⟩ "t.json"
      = Except.error "read failed" ∧
    LoadTodo ⟨["."], [("t.json", "not json")], [], [], []⟩ "t.json"
      = Except.error "invalid JSON" :=
  ⟨C6_load_behavior.1 fs0 "out/t.json" (by decide),
   C6_load_behavior.2.1 ⟨["."], [("t.json", "")], [], [], []⟩ "t.json" (by decide) (by decide),
   C6_load_behavior.2.2.1 ⟨["."], [("t.json", "[]")], [], ["t.json"], []⟩ "t.json" "[]"
     (by decide) (by decide),
   C6_load_behavior.2.2.2 ⟨["."], [("t.json", "not json")], [], [], []⟩ "t.json" "not json"
     "invalid JSON" (by decide) (by decide) (by decide) (by decide)⟩

/-- C7: saving a non-empty valid list to a path and loading from that same
path returns a list equal to the saved one (timestamps are modelled by
their RFC3339 text, so the round trip is exact). -/
theorem C7_save_load_round_trip :
    ∀ (fs : FS) (l : List Item) (path : String),
      l ≠ [] → ValidList l →
      parentDir path ∉ fs.mkdirFails → fs.writeQueue.headD true = true →
      path ∉ fs.readFails →
      LoadTodo (SaveTodo fs l path).1 path = Except.ok l :=
  fun fs l path _ _ hmk hw hr => LoadTodo_SaveTodo fs l path hmk hw hr

/-- Witness for C7 at a concrete one-item list. -/
theorem C7_save_load_round_trip_witness :
    LoadTodo (SaveTodo fs0 [itemA] "out/t.json").1 "out/t.json" = Except.ok [itemA] :=
  C7_save_load_round_trip fs0 [itemA] "out/t.json" (by decide) (by decide)
    (by decide) (by decide) (by decide)

/-- C8: Delete of an absent id returns a not-found error and the unchanged
list; Delete of a present id removes exactly that one item preserving the
order of the rest; under unique ids, deleting the same id twice yields the
not-found error the second time with the list unchanged. -/
theorem C8_delete_behavior :
    (∀ (l : List Item) (id : Int), (∀ x ∈ l, x.ID ≠ id) →
      Delete l id = (l, some ("no to-do with id " ++ toString id))) ∧
    (∀ (pre : List Item) (x : Item) (post : List Item) (id : Int),
      x.ID = id → (∀ y ∈ pre, y.ID ≠ id) →
      Delete (pre ++ x :: post) id = (pre ++ post, none)) ∧
    (∀ (pre : List Item) (x : Item) (post : List Item) (id : Int),
      uniqueIDs (pre ++ x :: post) → x.ID = id →
      Delete (pre ++ x :: post) id = (pre ++ post, none) ∧
      Delete (pre ++ post) id = (pre ++ post, some ("no to-do with id " ++ toString id))) := by
  refine ⟨Delete_not_found, Delete_found, ?_⟩
  intro pre x post id hu hx
  unfold uniqueIDs at hu
  rw [List.map_append, List.map_cons, List.nodup_append] at hu
  obtain ⟨h1, h2, hdisj⟩ := hu
  have hxpost : x.ID ∉ post.map Item.ID := (List.nodup_cons.1 h2).1
  have hpre : ∀ y ∈ pre, y.ID ≠ id := by
    intro y hy hc
    refine hdisj (List.mem_map_of_mem Item.ID hy) ?_
    rw [hc, ← hx]
    exact List.mem_cons_self _ _
  have hpost : ∀ y ∈ post, y.ID ≠ id := by
    intro y hy hc
    have hmem : y.ID ∈ post.map Item.ID := List.mem_map_of_mem Item.ID hy
    rw [hc, ← hx] at hmem
    exact hxpost hmem
  refine ⟨Delete_found pre x post id hx hpre, ?_⟩
  apply Delete_not_found
  intro y hy
  rcases List.mem_append.1 hy with h | h
  · exact hpre y h
  · exact hpost y h

/-- Witness for C8: the list with ids 1, 2, 3; delete 2 twice. -/
theorem C8_delete_behavior_witness :
    Delete [⟨1, "a", "started", "T"⟩, ⟨2, "b", "started", "T"⟩, ⟨3, "c", "started", "T"⟩] 2
      = ([⟨1, "a", "started", "T"⟩, ⟨3, "c", "started", "T"⟩], none) ∧
    Delete [⟨1, "a", "started", "T"⟩, ⟨3, "c", "started", "T"⟩] 2
      = ([⟨1, "a", "started", "T"⟩, ⟨3, "c", "started", "T"⟩],
         some ("no to-do with id " ++ toString (2 : Int))) :=
  C8_delete_behavior.2.2 [⟨1, "a", "started", "T"⟩] ⟨2, "b", "started", "T"⟩
    [⟨3, "c", "started", "T"⟩] 2 (by decide) (by decide)

/-- C9: UpdateDescription fails with the unchanged list on a
whitespace-only description and on an absent id; on success it changes only
the matched item's description and UpdateStatus only the matched item's
(lowercased) status — the other fields of the matched item and all other
items are unchanged. -/
theorem C9_update_frame :
    (∀ (l : List Item) (id : Int) (d : String), goTrimSpace d = "" →
      UpdateDescription l id d = (l, some "new description cannot be empty")) ∧
    (∀ (l : List Item) (id : Int) (d : String), goTrimSpace d ≠ "" →
      (∀ x ∈ l, x.ID ≠ id) →
      UpdateDescription l id d = (l, some ("no to-do with id " ++ toString id))) ∧
    (∀ (pre : List Item) (x : Item) (post : List Item) (id : Int) (d : String),
      goTrimSpace d ≠ "" → x.ID = id → (∀ y ∈ pre, y.ID ≠ id) →
      UpdateDescription (pre ++ x :: post) id d
        = (pre ++ { x with Description := goTrimSpace d } :: post, none)) ∧
    (∀ (pre : List Item) (x : Item) (post : List Item) (id : Int) (s : String),
      goToLower s ∈ validStatuses → x.ID = id → (∀ y ∈ pre, y.ID ≠ id) →
      UpdateStatus (pre ++ x :: post) id s
        = (pre ++ { x with Status := goToLower s } :: post, none)) := by
  refine ⟨?_, ?_, ?_, ?_⟩
  · intro l id d hd
    unfold UpdateDescription
    rw [if_pos hd]
  · intro l id d hd habs
    unfold UpdateDescription
    rw [if_neg hd, (setDescFirst_none_iff l id (goTrimSpace d)).2 habs]
  · intro pre x post id d hd hx hpre
    unfold UpdateDescription
    rw [if_neg hd, setDescFirst_append pre x post id (goTrimSpace d) hx hpre]
  · intro pre x post id s hs hx hpre
    unfold UpdateStatus
    rw [(statusValidate_none_iff s).2 hs, setStatusFirst_append pre x post id (goToLower s) hx hpre]

/-- Witness for C9 instantiating every conjunct. -/
theorem C9_update_frame_witness :
    UpdateDescription [⟨1, "a", "started", "T"⟩] 1 " "
      = ([⟨1, "a", "started", "T"⟩], some "new description cannot be empty") ∧
    UpdateDescription [⟨1, "a", "started", "T"⟩] 2 "b"
      = ([⟨1, "a", "started", "T"⟩], some ("no to-do with id " ++ toString (2 : Int))) ∧
    UpdateDescription [⟨1, "a", "started", "T"⟩, ⟨2, "b", "started", "T"⟩] 2 " c "
      = ([⟨1, "a", "started", "T"⟩,
          { (⟨2, "b", "started", "T"⟩ : Item) with Description := goTrimSpace " c " }], none) ∧
    UpdateStatus [⟨1, "a", "started", "T"⟩, ⟨2, "b", "started", "T"⟩] 2 "CoMpLeTeD"
      = ([⟨1, "a", "started", "T"⟩,
          { (⟨2, "b", "started", "T"⟩ : Item) with Status := goToLower "CoMpLeTeD" }], none) :=
  ⟨C9_update_frame.1 [⟨1, "a", "started", "T"⟩] 1 " " (by decide),
   C9_update_frame.2.1 [⟨1, "a", "started", "T"⟩] 2 "b" (by decide) (by decide),
   C9_update_frame.2.2.1 [⟨1, "a", "started", "T"⟩] ⟨2, "b", "started", "T"⟩ [] 2 " c "
     (by decide) (by decide) (by decide),
   C9_update_frame.2.2.2 [⟨1, "a", "started", "T"⟩] ⟨2, "b", "started", "T"⟩ [] 2 "CoMpLeTeD"
     (by decide) (by decide) (by decide)⟩

/-- C10: when the worker services a Save whose disk write fails, it has
already replaced the in-memory snapshot with the submitted list, so Save
returns the error yet every subsequent Load returns the submitted
(unpersisted) list, while the disk file still holds its previous content —
memory and disk diverge. -/
theorem C10_failed_save_divergence :
    ∀ (st : AState) (l : List Item) (mid : List Req) (fs2 : FS) (e : String),
      (∀ r ∈ mid, r = Req.get) →
      SaveTodo st.fs l st.path = (fs2, some e) →
      (serviceAll st (Req.set l :: mid)).2
        = Resp.saved (some e) :: mid.map (fun _ => Resp.items l) ∧
      fs2.files = st.fs.files := by
  intro st l mid fs2 e hmid hfail
  constructor
  · have hg := serviceAll_gets (setState st l) mid [] hmid
    rw [List.append_nil] at hg
    rw [serviceAll_set_cons, hg, hfail]
    simp [setState, serviceAll_nil]
  · rcases SaveTodo_cases st.fs l st.path with ⟨h1, h2⟩ | ⟨h1, h2, h3⟩ | ⟨h1, h2, h3⟩
    · rw [hfail] at h2
      have hfs2 : fs2 = st.fs := congrArg Prod.fst h2
      rw [hfs2]
    · rw [hfail] at h3
      have hfs2 : fs2 = fsAfterWriteFail st.fs st.path := congrArg Prod.fst h3
      rw [hfs2]
      rfl
    · rw [hfail] at h3
      have := congrArg Prod.snd h3
      simp at this

/-- Witness for C10: a store whose next disk write fails; the Save reports
the error, the following Load returns the submitted list, the disk file is
unchanged. -/
theorem C10_failed_save_divergence_witness :
    (serviceAll ⟨[], ⟨["."], [("out/t.json", "[]")], [], [], [false]⟩, "out/t.json"⟩
        (Req.set [itemA] :: [Req.get])).2
      = Resp.saved (some "write failed") :: [Req.get].map (fun _ => Resp.items [itemA]) ∧
    (fsAfterWriteFail ⟨["."], [("out/t.json", "[]")], [], [], [false]⟩ "out/t.json").files
      = (FS.mk ["."] [("out/t.json", "[]")] [] [] [false]).files :=
  C10_failed_save_divergence
    ⟨[], ⟨["."], [("out/t.json", "[]")], [], [], [false]⟩, "out/t.json"⟩
    [itemA] [Req.get]
    (fsAfterWriteFail ⟨["."], [("out/t.json", "[]")], [], [], [false]⟩ "out/t.json")
    "write failed" (by decide) (by decide)

end TodoApp
